import Mathlib

/-!
Verification of the time-mapping and cache-invalidation logic of Olive's
`ClipBlock` (app/node/block/clip/clip.cpp).

A clip maps between "sequence time" (position on the timeline) and
"media time" (position in the source), applying a reverse flag, a speed
multiplier and a `media_in` offset.  Invalidation ranges reported by the
connected source are converted across this mapping and forwarded to the
per-source playback caches (thumbnails, waveform, decoded frames,
decoded audio) and to the downstream node graph.

The `rational` time type, `TimeRange`, `TimeRangeList` and the
`PlaybackCache` collaborators are not part of the translated source; they
are modelled from the spec (see the doc comments on those definitions).
The C++ speed value is a `double`; here speed arithmetic is over exact
rationals, which the spec describes as the intended semantics modulo the
accepted floating-point precision loss of the multiply/divide.
-/

namespace OliveClip

/-- Modelled from the spec: the exact rational time value used throughout,
with the two reserved unbounded sentinels (`RATIONAL_MIN` / `RATIONAL_MAX`
in the source) and the not-a-number value (`rational::NaN`) as named
constructors, per the spec's design note ("named constructors/constants on
the time-value type itself, with explicit equality-based detection"). -/
inductive RTime where
  | ratMin : RTime
  | ratMax : RTime
  | nan : RTime
  | val : ℚ → RTime
deriving DecidableEq

/-- Modelled from the spec: total comparison used for range normalization
and intersection.  `ratMin` is below every value and `ratMax` above; the
placement of `nan` (below everything) is a modelling artifact — the source
never compares the not-a-number value. -/
def RTime.le : RTime → RTime → Bool
  | .nan, _ => true
  | _, .nan => false
  | .ratMin, _ => true
  | _, .ratMin => false
  | .val a, .val b => decide (a ≤ b)
  | .val _, .ratMax => true
  | .ratMax, .ratMax => true
  | .ratMax, .val _ => false

/-- Strict comparison derived from `RTime.le`. -/
def RTime.lt (a b : RTime) : Bool := !(RTime.le b a)

/-- The smaller of two times. -/
def rmin (a b : RTime) : RTime := if RTime.le a b then a else b

/-- The larger of two times. -/
def rmax (a b : RTime) : RTime := if RTime.le a b then b else a

/-- Modelled from the spec: rational subtraction where the not-a-number
value absorbs (the sentinels never reach arithmetic in the translated
code, since every mapping function detects them first). -/
def RTime.rsub : RTime → RTime → RTime
  | .val a, .val b => .val (a - b)
  | _, _ => .nan

/-- Modelled from the spec: a half-open interval `[rin, rout)` over
rational time. -/
structure TimeRange where
  rin : RTime
  rout : RTime
deriving DecidableEq

/-- Modelled from the spec: the normalizing `TimeRange` constructor.  The
invariant `in <= out` is maintained by swapping (spec scenario 2 maps the
endpoints of `[2s,4s)` through the reversed clip to `8s` and `6s` and
states the resulting downstream range is `[6s,8s)`). -/
def TimeRange.mk' (a b : RTime) : TimeRange :=
  if RTime.le a b then ⟨a, b⟩ else ⟨b, a⟩

/-- Membership of a time in a half-open range. -/
def TimeRange.memB (t : RTime) (r : TimeRange) : Bool :=
  RTime.le r.rin t && RTime.lt t r.rout

/-- A range is empty when no time is below its out point. -/
def TimeRange.isEmptyB (r : TimeRange) : Bool := RTime.le r.rout r.rin

/-- Modelled from the spec: set intersection of two half-open ranges
("supports intersection"); a disjoint pair yields an empty range, which
the spec's upstream-change handling treats as "no further action". -/
def TimeRange.Intersected (a b : TimeRange) : TimeRange :=
  let i := rmax a.rin b.rin
  let o := rmin a.rout b.rout
  if RTime.le i o then ⟨i, o⟩ else ⟨i, i⟩

/-- Modelled from the spec: the parts of `a` not covered by `b`
(range subtraction, used to remove passthrough-covered spans). -/
def TimeRange.subtract (a b : TimeRange) : List TimeRange :=
  let left : TimeRange := ⟨a.rin, rmin a.rout b.rin⟩
  let right : TimeRange := ⟨rmax a.rin b.rout, a.rout⟩
  (if left.isEmptyB then [] else [left]) ++
  (if right.isEmptyB then [] else [right])

/-- Modelled from the spec: `TimeRangeList::remove` — subtraction of a
range from a list of ranges. -/
def TimeRangeList.remove (l : List TimeRange) (r : TimeRange) : List TimeRange :=
  (l.map (fun x => TimeRange.subtract x r)).flatten

/-- The clip's time parameters (the non-connectable inputs of
`ClipBlock`): `length`, `media_in`, `speed`, `reverse`,
`maintain_audio_pitch` and `autocache`. -/
structure Clip where
  length : ℚ
  media_in : ℚ
  speed : ℚ
  reverse : Bool
  maintain_audio_pitch : Bool
  autocache : Bool
deriving DecidableEq

/-- `Track::Type` of the track the clip sits on. -/
inductive TrackType where
  | kVideo : TrackType
  | kAudio : TrackType
  | kNone : TrackType
deriving DecidableEq

/-- The clip together with its surroundings read by the invalidation
paths: its track's type, whether a source is connected on the buffer
input (`GetConnectedOutput(kBufferIn)`), and whether caches are enabled
(`AreCachesEnabled`, modelled from the spec as an external flag). -/
structure ClipEnv where
  clip : Clip
  trackType : TrackType
  connected : Bool
  cachesEnabled : Bool
deriving DecidableEq

def kBufferIn : String := "buffer_in"
def kMediaInInput : String := "media_in_in"
def kSpeedInput : String := "speed_in"
def kReverseInput : String := "reverse_in"
def kMaintainAudioPitchInput : String := "maintain_audio_pitch_in"
def kAutoCacheInput : String := "autocache_in"

/-- The non-sentinel core of `ClipBlock::SequenceToMediaTime`: reverse
(unless ignored), then the speed policy (freeze to `0` at speed zero,
multiply when speed differs from one), then the `media_in` offset. -/
def seqToMediaVal (c : Clip) (q : ℚ) (ignore_reverse ignore_speed : Bool) : ℚ :=
  let mt := if c.reverse && !ignore_reverse then c.length - q else q
  let mt := if !ignore_speed then
      if c.speed = 0 then 0
      else if c.speed ≠ 1 then mt * c.speed
      else mt
    else mt
  mt + c.media_in

/-- `ClipBlock::SequenceToMediaTime`: sentinels pass through unchanged;
the not-a-number value propagates through the arithmetic. -/
def SequenceToMediaTime (c : Clip) (t : RTime) (ignore_reverse : Bool := false)
    (ignore_speed : Bool := false) : RTime :=
  match t with
  | .ratMin => .ratMin
  | .ratMax => .ratMax
  | .nan => .nan
  | .val q => .val (seqToMediaVal c q ignore_reverse ignore_speed)

/-- `ClipBlock::MediaToSequenceTime`: sentinels pass through; subtract
`media_in`; at speed zero the result is the not-a-number value (which the
final reverse subtraction absorbs); otherwise divide by speed when it
differs from one; finally mirror by `length` when reversed. -/
def MediaToSequenceTime (c : Clip) (t : RTime) : RTime :=
  match t with
  | .ratMin => .ratMin
  | .ratMax => .ratMax
  | .nan => .nan
  | .val q =>
    let st0 : ℚ := q - c.media_in
    let st : RTime :=
      if c.speed = 0 then .nan
      else if c.speed ≠ 1 then .val (st0 / c.speed)
      else .val st0
    if c.reverse then RTime.rsub (.val c.length) st else st

/-- `ClipBlock::set_media_in` (a standard-value write on the media-in
input, modelled as a field update). -/
def set_media_in (c : Clip) (m : ℚ) : Clip := { c with media_in := m }

/-- `ClipBlock::set_length_and_media_out`: no-op when the length is
unchanged; when reversed, recompute `media_in` as
`SequenceToMediaTime(old_length - new_length, ignoreReverse := true)`
before applying the length change.  `Block::set_length_and_media_out` is
modelled from the spec as applying the new length. -/
def set_length_and_media_out (c : Clip) (len : ℚ) : Clip :=
  if len = c.length then c
  else
    let c1 := if c.reverse then set_media_in c (seqToMediaVal c (c.length - len) true false) else c
    { c1 with length := len }

/-- `ClipBlock::set_length_and_media_in`: no-op when the length is
unchanged; when not reversed, recompute `media_in` as
`SequenceToMediaTime(old_length - new_length, ignoreSpeed := true)`
before applying the length change.  `Block::set_length_and_media_in` is
modelled from the spec as applying the new length. -/
def set_length_and_media_in (c : Clip) (len : ℚ) : Clip :=
  if len = c.length then c
  else
    let c1 := if !c.reverse then set_media_in c (seqToMediaVal c (c.length - len) false true) else c
    { c1 with length := len }

/-- The four `PlaybackCache` instances exposed by the connected source. -/
inductive CacheKind where
  | thumbnail : CacheKind
  | videoFrame : CacheKind
  | waveform : CacheKind
  | audioPlayback : CacheKind
deriving DecidableEq

/-- An observable operation issued to a playback cache:
`Invalidate(range)`, an emitted recompute `Request(range)`, or an emitted
`CancelAll`. -/
inductive CacheOp where
  | invalidate : CacheKind → TimeRange → CacheOp
  | request : CacheKind → TimeRange → CacheOp
  | cancelAll : CacheKind → CacheOp
deriving DecidableEq

/-- The range an operation touches, when it has one. -/
def CacheOp.rangeOf : CacheOp → Option TimeRange
  | .invalidate _ r => some r
  | .request _ r => some r
  | .cancelAll _ => none

/-- Modelled from the spec: the state of the playback caches read by the
recompute-only sweep — `GetInvalidatedRanges(within)` and
`GetPassthroughs()` per cache instance. -/
structure CacheState where
  getInvalidated : CacheKind → TimeRange → List TimeRange
  passthroughs : CacheKind → List TimeRange

/-- `ClipBlock::InputTimeAdjustment`: on the buffer input, map both
endpoints with `SequenceToMediaTime`; other inputs pass through
(the generic node default, per the spec's external-interface contract). -/
def InputTimeAdjustment (c : Clip) (input : String) (input_time : TimeRange) : TimeRange :=
  if input = kBufferIn then
    TimeRange.mk' (SequenceToMediaTime c input_time.rin) (SequenceToMediaTime c input_time.rout)
  else input_time

/-- `ClipBlock::OutputTimeAdjustment`: on the buffer input, map both
endpoints with `MediaToSequenceTime`; other inputs pass through. -/
def OutputTimeAdjustment (c : Clip) (input : String) (input_time : TimeRange) : TimeRange :=
  if input = kBufferIn then
    TimeRange.mk' (MediaToSequenceTime c input_time.rin) (MediaToSequenceTime c input_time.rout)
  else input_time

/-- The clip's visible media window: `InputTimeAdjustment` applied to
`[0, length)` on the buffer input (`max_range` in the source). -/
def visibleMediaWindow (c : Clip) : TimeRange :=
  InputTimeAdjustment c kBufferIn ⟨.val 0, .val c.length⟩

/-- `ClipBlock::RequestRangeForCache`: intersect the range with
`max_range`, then invalidate and/or emit a recompute request as the flags
dictate. -/
def RequestRangeForCache (k : CacheKind) (max_range range : TimeRange)
    (invalidate request : Bool) : List CacheOp :=
  let r := range.Intersected max_range
  (if invalidate then [CacheOp.invalidate k r] else []) ++
  (if request then [CacheOp.request k r] else [])

/-- `ClipBlock::RequestRangeFromConnected`: on a video track, invalidate
and always request thumbnails, and invalidate the frame cache requesting
recompute only when autocaching; the audio track is symmetric with
waveform and audio caches.  Nothing happens without a connected source or
on a typeless track. -/
def RequestRangeFromConnected (e : ClipEnv) (range : TimeRange) : List CacheOp :=
  match e.trackType with
  | .kVideo =>
    if e.connected then
      let max_range := InputTimeAdjustment e.clip kBufferIn ⟨.val 0, .val e.clip.length⟩
      RequestRangeForCache .thumbnail max_range range true true ++
      RequestRangeForCache .videoFrame max_range range true e.clip.autocache
    else []
  | .kAudio =>
    if e.connected then
      let max_range := InputTimeAdjustment e.clip kBufferIn ⟨.val 0, .val e.clip.length⟩
      RequestRangeForCache .waveform max_range range true true ++
      RequestRangeForCache .audioPlayback max_range range true e.clip.autocache
    else []
  | .kNone => []

/-- `ClipBlock::RequestInvalidatedForCache`: query the cache's
invalidated ranges within `max_range`, remove every passthrough-covered
range, and issue a request (no invalidation) for each remaining range. -/
def RequestInvalidatedForCache (k : CacheKind) (cs : CacheState) (max_range : TimeRange) :
    List CacheOp :=
  let invalid := (cs.passthroughs k).foldl TimeRangeList.remove (cs.getInvalidated k max_range)
  (invalid.map (fun r => RequestRangeForCache k max_range r false true)).flatten

/-- `ClipBlock::RequestInvalidatedFromConnected`: the recompute-only
sweep over the track's applicable caches; the frame/audio caches are
swept only when autocaching. -/
def RequestInvalidatedFromConnected (e : ClipEnv) (cs : CacheState) : List CacheOp :=
  match e.trackType with
  | .kVideo =>
    if e.connected then
      let max_range := InputTimeAdjustment e.clip kBufferIn ⟨.val 0, .val e.clip.length⟩
      RequestInvalidatedForCache .thumbnail cs max_range ++
      (if e.clip.autocache then RequestInvalidatedForCache .videoFrame cs max_range else [])
    else []
  | .kAudio =>
    if e.connected then
      let max_range := InputTimeAdjustment e.clip kBufferIn ⟨.val 0, .val e.clip.length⟩
      RequestInvalidatedForCache .waveform cs max_range ++
      (if e.clip.autocache then RequestInvalidatedForCache .audioPlayback cs max_range else [])
    else []
  | .kNone => []

/-- `ClipBlock::InvalidateCache`, restricted to its observable data flow:
for a signal on the buffer input, the cache operations issued (when
caches are enabled) and the media-to-sequence adjusted range handed to
the generic downstream propagation; at speed zero the whole-clip span
`(RATIONAL_MIN, RATIONAL_MAX)` is propagated without consulting the
inverse mapping.  Signals from other inputs pass the range along
unchanged.  (The viewer/marker subscription rebinding in the source is
connection bookkeeping with no effect on either output.) -/
def InvalidateCache (e : ClipEnv) (range : TimeRange) (fromInput : String) :
    List CacheOp × TimeRange :=
  if fromInput = kBufferIn then
    ((if e.cachesEnabled then RequestRangeFromConnected e range else []),
     if e.clip.speed = 0 then ⟨.ratMin, .ratMax⟩
     else TimeRange.mk' (MediaToSequenceTime e.clip range.rin)
            (MediaToSequenceTime e.clip range.rout))
  else ([], range)

/-- `ClipBlock::InputValueChangedEvent`, restricted to the autocache
input: turning autocache on runs the recompute-only sweep; turning it off
cancels all work on the frame cache (video track) or the audio cache
(audio track) of the connected source. -/
def InputValueChangedEvent (e : ClipEnv) (cs : CacheState) (input : String) : List CacheOp :=
  if input = kAutoCacheInput then
    if e.clip.autocache then
      RequestInvalidatedFromConnected e cs
    else
      if e.connected then
        match e.trackType with
        | .kVideo => [CacheOp.cancelAll .videoFrame]
        | .kAudio => [CacheOp.cancelAll .audioPlayback]
        | .kNone => []
      else []
  else []

/-! ### Order lemmas for `RTime` -/

theorem RTime.leB_refl (a : RTime) : RTime.le a a = true := by
  cases a <;> simp [RTime.le]

theorem RTime.leB_trans {a b c : RTime} (h1 : RTime.le a b = true)
    (h2 : RTime.le b c = true) : RTime.le a c = true := by
  cases a <;> cases b <;> cases c <;> simp_all [RTime.le]
  exact le_trans h1 h2

theorem RTime.leB_total (a b : RTime) : RTime.le a b = true ∨ RTime.le b a = true := by
  cases a <;> cases b <;> simp [RTime.le]
  exact le_total _ _

theorem RTime.ltB_of_ltB_of_leB {a b c : RTime} (h1 : RTime.lt a b = true)
    (h2 : RTime.le b c = true) : RTime.lt a c = true := by
  simp only [RTime.lt, Bool.not_eq_true'] at h1 ⊢
  by_contra hc
  rw [Bool.not_eq_false] at hc
  exact absurd (RTime.leB_trans h2 hc) (by simp [h1])

theorem RTime.leB_rmax_right (a b : RTime) : RTime.le b (rmax a b) = true := by
  unfold rmax
  by_cases h : RTime.le a b = true
  · rw [if_pos h]
    exact RTime.leB_refl b
  · rw [if_neg h]
    rcases RTime.leB_total a b with h' | h'
    · exact absurd h' h
    · exact h'

theorem RTime.leB_rmin_right (a b : RTime) : RTime.le (rmin a b) b = true := by
  unfold rmin
  by_cases h : RTime.le a b = true
  · rw [if_pos h]
    exact h
  · rw [if_neg h]
    exact RTime.leB_refl b

/-- A time inside the intersection of two ranges lies inside the second
range (the `max_range` argument of the cache-request path). -/
theorem memB_Intersected_right {t : RTime} {a b : TimeRange}
    (h : TimeRange.memB t (a.Intersected b) = true) : TimeRange.memB t b = true := by
  simp only [TimeRange.Intersected] at h
  by_cases hio : RTime.le (rmax a.rin b.rin) (rmin a.rout b.rout) = true
  · rw [if_pos hio] at h
    simp only [TimeRange.memB, Bool.and_eq_true] at h ⊢
    obtain ⟨h1, h2⟩ := h
    exact ⟨RTime.leB_trans (RTime.leB_rmax_right a.rin b.rin) h1,
           RTime.ltB_of_ltB_of_leB h2 (RTime.leB_rmin_right a.rout b.rout)⟩
  · rw [if_neg hio] at h
    simp only [TimeRange.memB, RTime.lt, Bool.and_eq_true, Bool.not_eq_true'] at h
    exact absurd h.1 (by simp [h.2])

/-- The sequence-time range `InvalidateCache` hands downstream for a
buffer-input signal, independent of the cache-request side effects. -/
theorem InvalidateCache_snd (e : ClipEnv) (range : TimeRange) :
    (InvalidateCache e range kBufferIn).2 =
      (if e.clip.speed = 0 then (⟨.ratMin, .ratMax⟩ : TimeRange)
       else TimeRange.mk' (MediaToSequenceTime e.clip range.rin)
              (MediaToSequenceTime e.clip range.rout)) := by
  simp [InvalidateCache]

/-! ### Claims -/

/-- Claim C2: the two unbounded sentinel times are fixed points of
`SequenceToMediaTime` for every combination of the ignore flags and of
`MediaToSequenceTime`, for every clip configuration: no reverse, speed or
media-in math is applied to them. -/
theorem sentinels_fixed_points (c : Clip) (ir ispd : Bool) :
    SequenceToMediaTime c .ratMin ir ispd = .ratMin ∧
    SequenceToMediaTime c .ratMax ir ispd = .ratMax ∧
    MediaToSequenceTime c .ratMin = .ratMin ∧
    MediaToSequenceTime c .ratMax = .ratMax :=
  ⟨rfl, rfl, rfl, rfl⟩

/-- Claim C3: at speed zero, the forward mapping freezes every
non-sentinel time to `media_in`, and the inverse mapping returns the
not-a-number value, for every reverse/media-in/length configuration. -/
theorem speed_zero_mapping (c : Clip) (q : ℚ) (h : c.speed = 0) :
    SequenceToMediaTime c (.val q) = .val c.media_in ∧
    MediaToSequenceTime c (.val q) = .nan := by
  constructor
  · simp [SequenceToMediaTime, seqToMediaVal, h]
  · cases hr : c.reverse <;> simp [MediaToSequenceTime, h, hr, RTime.rsub]

def clipFrozen : Clip :=
  { length := 10, media_in := 3, speed := 0, reverse := true,
    maintain_audio_pitch := false, autocache := true }

theorem speed_zero_mapping_w :
    SequenceToMediaTime clipFrozen (.val 2) = .val 3 ∧
    MediaToSequenceTime clipFrozen (.val 2) = .nan :=
  speed_zero_mapping clipFrozen 2 rfl

/-- Claim C10: calling either length setter with the current length is a
complete no-op: the clip state is returned unchanged, for every reverse
configuration. -/
theorem set_length_same_noop (c : Clip) :
    set_length_and_media_out c c.length = c ∧
    set_length_and_media_in c c.length = c := by
  constructor <;> simp [set_length_and_media_out, set_length_and_media_in]

def clipRev : Clip :=
  { length := 10, media_in := 0, speed := 1, reverse := true,
    maintain_audio_pitch := false, autocache := false }

/-- Claim C4: for a clip with length 10s, media-in 0, speed 1 and
reverse on, a media-range invalidation `[2s,4s)` arriving on the buffer
input is propagated downstream as exactly the sequence range `[6s,8s)`,
for every track type and connection/caching configuration. -/
theorem reverse_invalidation_range (tt : TrackType) (cn ce : Bool) :
    (InvalidateCache ⟨clipRev, tt, cn, ce⟩ ⟨.val 2, .val 4⟩ kBufferIn).2 =
      ⟨.val 6, .val 8⟩ := by
  rw [InvalidateCache_snd]
  norm_num [clipRev, MediaToSequenceTime, RTime.rsub, TimeRange.mk', RTime.le]

/-- Claim C5: at speed zero, any media-range invalidation on the buffer
input is propagated downstream as the whole-clip span
`(RATIONAL_MIN, RATIONAL_MAX)`; the branch taken never consults the
inverse mapping `MediaToSequenceTime`. -/
theorem speed_zero_invalidate_whole (e : ClipEnv) (range : TimeRange)
    (h : e.clip.speed = 0) :
    (InvalidateCache e range kBufferIn).2 = ⟨.ratMin, .ratMax⟩ := by
  rw [InvalidateCache_snd]
  simp [h]

theorem speed_zero_invalidate_whole_w :
    (InvalidateCache ⟨clipFrozen, .kVideo, true, true⟩ ⟨.val 2, .val 4⟩ kBufferIn).2 =
      ⟨.ratMin, .ratMax⟩ :=
  speed_zero_invalidate_whole ⟨clipFrozen, .kVideo, true, true⟩ ⟨.val 2, .val 4⟩ rfl

/-- Claim C1: for every clip with positive speed and any reverse,
media-in and length, `MediaToSequenceTime` inverts `SequenceToMediaTime`
on every non-sentinel time.  Over the exact rational model the identity
is exact for every positive speed; the claim's floating-point rounding
caveat concerns only the `double` multiply/divide of the source, which
this model (like the claim) idealizes as exact. -/
theorem round_trip (c : Clip) (q : ℚ) (h : 0 < c.speed) :
    MediaToSequenceTime c (SequenceToMediaTime c (.val q)) = .val q := by
  have hs0 : c.speed ≠ 0 := ne_of_gt h
  rcases eq_or_ne c.speed 1 with hs1 | hs1 <;> cases hr : c.reverse <;>
    simp [SequenceToMediaTime, MediaToSequenceTime, seqToMediaVal, hs0, hs1, hr, RTime.rsub]

theorem round_trip_w :
    (0:ℚ) < clipRev.speed ∧
    MediaToSequenceTime clipRev (SequenceToMediaTime clipRev (.val 3)) = .val 3 :=
  ⟨by norm_num [clipRev], round_trip clipRev 3 (by norm_num [clipRev])⟩

/-- Claim C9: trimming via the out-point setter on a reversed clip first
recomputes `media_in` as `SequenceToMediaTime(old_length - new_length,
ignoreReverse := true)` (speed still applied); trimming via the in-point
setter on a forward clip first recomputes it as
`SequenceToMediaTime(old_length - new_length, ignoreSpeed := true)`
(reverse still applied); in the opposite reverse configuration of each
setter `media_in` is untouched; the length change is applied after the
media-in adjustment (the adjustment reads the pre-change state). -/
theorem trim_adjusts_media_in (c : Clip) (len : ℚ) (h : len ≠ c.length) :
    (c.reverse = true →
       set_length_and_media_out c len =
         { set_media_in c (seqToMediaVal c (c.length - len) true false) with length := len } ∧
       SequenceToMediaTime c (.val (c.length - len)) true false =
         .val (set_length_and_media_out c len).media_in) ∧
    (c.reverse = false → set_length_and_media_out c len = { c with length := len }) ∧
    (c.reverse = false →
       set_length_and_media_in c len =
         { set_media_in c (seqToMediaVal c (c.length - len) false true) with length := len } ∧
       SequenceToMediaTime c (.val (c.length - len)) false true =
         .val (set_length_and_media_in c len).media_in) ∧
    (c.reverse = true → set_length_and_media_in c len = { c with length := len }) := by
  refine ⟨?_, ?_, ?_, ?_⟩ <;> intro hr <;>
    simp [set_length_and_media_out, set_length_and_media_in, set_media_in,
      SequenceToMediaTime, h, hr]

theorem trim_adjusts_media_in_w :
    (clipRev.reverse = true →
       set_length_and_media_out clipRev 4 =
         { set_media_in clipRev (seqToMediaVal clipRev (clipRev.length - 4) true false) with
             length := 4 } ∧
       SequenceToMediaTime clipRev (.val (clipRev.length - 4)) true false =
         .val (set_length_and_media_out clipRev 4).media_in) ∧
    (clipRev.reverse = false → set_length_and_media_out clipRev 4 = { clipRev with length := 4 }) ∧
    (clipRev.reverse = false →
       set_length_and_media_in clipRev 4 =
         { set_media_in clipRev (seqToMediaVal clipRev (clipRev.length - 4) false true) with
             length := 4 } ∧
       SequenceToMediaTime clipRev (.val (clipRev.length - 4)) false true =
         .val (set_length_and_media_in clipRev 4).media_in) ∧
    (clipRev.reverse = true → set_length_and_media_in clipRev 4 = { clipRev with length := 4 }) :=
  trim_adjusts_media_in clipRev 4 (by norm_num [clipRev])

/-- A cache state with nothing invalidated and no passthroughs, for
concrete instantiations. -/
def csEmpty : CacheState := ⟨fun _ _ => [], fun _ => []⟩

/-- Claim C7: with a connected buffer source, turning autocache off emits
`CancelAll` only to the decoded-frame cache on a video track or the
decoded-audio cache on an audio track — never to the thumbnail or
waveform cache — and issues no invalidation and no recompute request on
this path. -/
theorem autocache_off_cancels (e : ClipEnv) (cs : CacheState)
    (hac : e.clip.autocache = false) (hcn : e.connected = true) :
    (e.trackType = .kVideo →
       InputValueChangedEvent e cs kAutoCacheInput = [CacheOp.cancelAll .videoFrame]) ∧
    (e.trackType = .kAudio →
       InputValueChangedEvent e cs kAutoCacheInput = [CacheOp.cancelAll .audioPlayback]) ∧
    (∀ op ∈ InputValueChangedEvent e cs kAutoCacheInput,
       op = CacheOp.cancelAll .videoFrame ∨ op = CacheOp.cancelAll .audioPlayback) := by
  refine ⟨?_, ?_, ?_⟩
  · intro ht
    simp [InputValueChangedEvent, hac, hcn, ht]
  · intro ht
    simp [InputValueChangedEvent, hac, hcn, ht]
  · intro op hop
    cases ht : e.trackType <;> simp [InputValueChangedEvent, hac, hcn, ht] at hop <;>
      simp [hop]

theorem autocache_off_cancels_w :
    InputValueChangedEvent ⟨clipRev, .kVideo, true, true⟩ csEmpty kAutoCacheInput =
      [CacheOp.cancelAll .videoFrame] :=
  (autocache_off_cancels ⟨clipRev, .kVideo, true, true⟩ csEmpty rfl rfl).1 rfl

/-- The per-cache sweep is exactly one recompute request per remaining
invalidated sub-range. -/
theorem RequestInvalidatedForCache_eq (k : CacheKind) (cs : CacheState) (mr : TimeRange) :
    RequestInvalidatedForCache k cs mr =
      ((cs.passthroughs k).foldl TimeRangeList.remove (cs.getInvalidated k mr)).map
        (fun r => CacheOp.request k (r.Intersected mr)) := by
  unfold RequestInvalidatedForCache RequestRangeForCache
  generalize (cs.passthroughs k).foldl TimeRangeList.remove (cs.getInvalidated k mr) = l
  induction l with
  | nil => rfl
  | cons x xs ih => simp_all

/-- Every operation of the full recompute-only sweep comes from a
per-cache sweep at the clip's visible media window. -/
theorem mem_RequestInvalidatedFromConnected {e : ClipEnv} {cs : CacheState} {op : CacheOp}
    (hop : op ∈ RequestInvalidatedFromConnected e cs) :
    ∃ k, op ∈ RequestInvalidatedForCache k cs (visibleMediaWindow e.clip) := by
  unfold RequestInvalidatedFromConnected at hop
  unfold visibleMediaWindow
  cases ht : e.trackType <;> rw [ht] at hop
  case kNone => exact absurd hop (by simp)
  case kVideo =>
    cases hc : e.connected <;> rw [hc] at hop
    · exact absurd hop (by simp)
    · simp only [if_true, List.mem_append] at hop
      rcases hop with h | h
      · exact ⟨.thumbnail, h⟩
      · cases ha : e.clip.autocache <;> rw [ha] at h
        · exact absurd h (by simp)
        · simp only [if_true] at h
          exact ⟨.videoFrame, h⟩
  case kAudio =>
    cases hc : e.connected <;> rw [hc] at hop
    · exact absurd hop (by simp)
    · simp only [if_true, List.mem_append] at hop
      rcases hop with h | h
      · exact ⟨.waveform, h⟩
      · cases ha : e.clip.autocache <;> rw [ha] at h
        · exact absurd h (by simp)
        · simp only [if_true] at h
          exact ⟨.audioPlayback, h⟩

/-- Claim C8: the recompute-only sweep queries the cache's invalidated
ranges restricted to the window, subtracts every passthrough-covered
range, and issues exactly one recompute request per remaining sub-range
with no invalidation; every operation of the full sweep arises from such
a per-cache sweep at the clip's visible media window. -/
theorem recompute_sweep (k : CacheKind) (cs : CacheState) (mr : TimeRange) :
    RequestInvalidatedForCache k cs mr =
      ((cs.passthroughs k).foldl TimeRangeList.remove (cs.getInvalidated k mr)).map
        (fun r => CacheOp.request k (r.Intersected mr)) ∧
    (∀ op ∈ RequestInvalidatedForCache k cs mr, ∀ k2 r2, op ≠ CacheOp.invalidate k2 r2) ∧
    (∀ e cs2 op, op ∈ RequestInvalidatedFromConnected e cs2 →
       (∃ k2, op ∈ RequestInvalidatedForCache k2 cs2 (visibleMediaWindow e.clip)) ∧
       ∀ k2 r2, op ≠ CacheOp.invalidate k2 r2) := by
  have key : ∀ k3 cs3 mr3, ∀ op ∈ RequestInvalidatedForCache k3 cs3 mr3,
      ∀ k2 r2, op ≠ CacheOp.invalidate k2 r2 := by
    intro k3 cs3 mr3 op hop k2 r2
    rw [RequestInvalidatedForCache_eq] at hop
    simp only [List.mem_map] at hop
    obtain ⟨r, _, hr⟩ := hop
    rw [← hr]
    simp
  refine ⟨RequestInvalidatedForCache_eq k cs mr, key k cs mr, ?_⟩
  intro e cs2 op hop
  obtain ⟨k2, hk2⟩ := mem_RequestInvalidatedFromConnected hop
  exact ⟨⟨k2, hk2⟩, key k2 cs2 (visibleMediaWindow e.clip) op hk2⟩

/-- Any operation emitted by `RequestRangeForCache` carries the incoming
range intersected with `max_range`. -/
theorem rangeOf_RequestRangeForCache {op : CacheOp} {k : CacheKind} {mr rg : TimeRange}
    {inv req : Bool} (hop : op ∈ RequestRangeForCache k mr rg inv req) :
    op.rangeOf = some (rg.Intersected mr) := by
  unfold RequestRangeForCache at hop
  cases inv <;> cases req <;> simp at hop
  all_goals first
    | (rcases hop with h | h <;> subst h <;> rfl)
    | (subst hop; rfl)

/-- Every operation issued by `RequestRangeFromConnected` carries exactly
the incoming range intersected with the clip's visible media window. -/
theorem mem_RequestRangeFromConnected {e : ClipEnv} {range : TimeRange} {op : CacheOp}
    (hop : op ∈ RequestRangeFromConnected e range) :
    op.rangeOf = some (range.Intersected (visibleMediaWindow e.clip)) := by
  unfold RequestRangeFromConnected at hop
  unfold visibleMediaWindow
  cases ht : e.trackType <;> rw [ht] at hop
  case kNone => exact absurd hop (by simp)
  case kVideo =>
    cases hc : e.connected <;> rw [hc] at hop
    · exact absurd hop (by simp)
    · simp only [if_true, List.mem_append] at hop
      rcases hop with h | h
      · exact rangeOf_RequestRangeForCache h
      · exact rangeOf_RequestRangeForCache h
  case kAudio =>
    cases hc : e.connected <;> rw [hc] at hop
    · exact absurd hop (by simp)
    · simp only [if_true, List.mem_append] at hop
      rcases hop with h | h
      · exact rangeOf_RequestRangeForCache h
      · exact rangeOf_RequestRangeForCache h

/-- Claim C6: every invalidation and every recompute request issued for a
source-invalidated media range targets only that range intersected with
the clip's visible media window (the `SequenceToMediaTime` image of
`[0, length)`): no time outside the window is ever invalidated or
requested. -/
theorem invalidation_scoped (e : ClipEnv) (range : TimeRange) (op : CacheOp)
    (r : TimeRange) (t : RTime)
    (hop : op ∈ RequestRangeFromConnected e range)
    (hr : op.rangeOf = some r)
    (ht : TimeRange.memB t r = true) :
    TimeRange.memB t (visibleMediaWindow e.clip) = true := by
  have hmem := mem_RequestRangeFromConnected hop
  rw [hr] at hmem
  obtain rfl := Option.some.inj hmem
  exact memB_Intersected_right ht

/-- A forward clip used for concrete instantiations: length 10s,
media-in 0, speed 1, autocaching. -/
def clipFwd : Clip :=
  { length := 10, media_in := 0, speed := 1, reverse := false,
    maintain_audio_pitch := false, autocache := true }

theorem invalidation_scoped_w :
    TimeRange.memB (.val 3) (visibleMediaWindow clipFwd) = true := by
  refine invalidation_scoped ⟨clipFwd, .kVideo, true, true⟩ ⟨.val 2, .val 4⟩
    (CacheOp.invalidate .thumbnail
      (TimeRange.Intersected ⟨.val 2, .val 4⟩ (visibleMediaWindow clipFwd)))
    (TimeRange.Intersected ⟨.val 2, .val 4⟩ (visibleMediaWindow clipFwd)) (.val 3)
    ?_ rfl ?_
  · simp [RequestRangeFromConnected, RequestRangeForCache, visibleMediaWindow]
  · norm_num [TimeRange.Intersected, visibleMediaWindow, InputTimeAdjustment,
      SequenceToMediaTime, seqToMediaVal, clipFwd, TimeRange.mk', TimeRange.memB,
      rmax, rmin, RTime.le, RTime.lt]

end OliveClip
